import Mathlib

/-!
Shallow embedding of the python-upbit client (`src/upbit/client.py` and
`src/upbit/exceptions.py`).

Python strings are modelled at the byte level, as `List (Fin 256)`: the
code hashes `query_string.encode()` (the UTF-8 bytes) and `urllib.parse`
percent-encodes the UTF-8 bytes of a string, so byte lists are the
faithful carrier.  All concrete inputs appearing below are ASCII, for
which a Python `str` and its UTF-8 bytes correspond one to one.

External library primitives that the client merely calls (the SHA-512
compression function from `hashlib`, the JWT encoder from `pyjwt`) are
taken as explicit function parameters of the embedded operations; the
repository's own logic (canonicalization, payload construction, response
handling, endpoint dispatch) is translated definition by definition.
-/

abbrev Byte := Fin 256
abbrev Bytes := List Byte

def byteOfNat (n : Nat) : Byte := ⟨n % 256, Nat.mod_lt _ (by norm_num)⟩

def charByte (c : Char) : Byte := byteOfNat c.toNat

/-- ASCII string literal, viewed as its (UTF-8 = ASCII) bytes. -/
def bb (s : String) : Bytes := s.toList.map charByte

/-- The concrete Python type of a non-string iterable value (`list`,
`tuple`, ...).  The source's branch `isinstance(v, collections.abc.Iterable)`
treats every such kind alike. -/
inductive SeqKind
  | list
  | tuple
  deriving DecidableEq

/-- A Python value occurring in a query mapping: a scalar (`str`, `int`,
`bool`, `None`) or a non-string iterable of strings. -/
inductive QVal
  | str (s : Bytes)
  | intV (n : Int)
  | boolV (b : Bool)
  | noneV
  | seqV (kind : SeqKind) (elems : List Bytes)
  deriving DecidableEq

/-- A Query: the `.items()` view of a Python `Mapping` (a `Mapping` never
yields a key twice), in insertion order. -/
abbrev Query := List (Bytes × QVal)

/-- Python `isinstance(v, str)`. -/
def pyIsStr : QVal → Bool
  | .str _ => true
  | _ => false

/-- Python `isinstance(v, collections.abc.Iterable)`: strings and the
sequence kinds are iterable, numbers / booleans / `None` are not. -/
def pyIsIterable : QVal → Bool
  | .str _ => true
  | .seqV _ _ => true
  | _ => false

/-- The branch test of `_urlencode`'s loop:
`not isinstance(v, str) and isinstance(v, collections.abc.Iterable)`. -/
def isSeqBranch (v : QVal) : Bool := !pyIsStr v && pyIsIterable v

/-- The elements a sequence value iterates over. -/
def pyElems : QVal → List Bytes
  | .seqV _ xs => xs
  | _ => []

/-- Decimal digits of a natural number, as bytes (Python `str(n)` for
`n ≥ 0`). -/
def natRepr (n : Nat) : Bytes := (Nat.toDigits 10 n).map charByte

/-- Python `str(v)` for scalar values, as used by `urllib.parse.urlencode`
on each key and value (`str` is the identity on strings; `int`, `bool` and
`None` print as their reprs).  A sequence value never reaches this
conversion (it is diverted to the sequence branch), so it is mapped to the
empty string. -/
def pyStr : QVal → Bytes
  | .str s => s
  | .intV n => if n < 0 then byteOfNat 45 :: natRepr n.natAbs else natRepr n.natAbs
  | .boolV b => if b then bb "True" else bb "False"
  | .noneV => bb "None"
  | .seqV _ _ => []

/-- The characters `urllib.parse.quote` never escapes (with `safe=''`, as
`urlencode` uses): ASCII letters, digits, and `_ . - ~`. -/
def isSafeByte (b : Byte) : Bool :=
  (65 ≤ b.val && b.val ≤ 90) || (97 ≤ b.val && b.val ≤ 122) ||
    (48 ≤ b.val && b.val ≤ 57) || b.val == 45 || b.val == 46 ||
    b.val == 95 || b.val == 126

/-- Upper-case hex digit byte for a nibble (as `urllib.parse.quote` emits). -/
def hexUpperDigit (n : Nat) : Byte :=
  if n < 10 then byteOfNat (48 + n) else byteOfNat (55 + n)

/-- `urllib.parse.quote_plus` on one byte: space becomes `+`, safe bytes
stay, everything else becomes `%XX`. -/
def encByte (b : Byte) : Bytes :=
  if b.val = 32 then [byteOfNat 43]
  else if isSafeByte b then [b]
  else [byteOfNat 37, hexUpperDigit (b.val / 16), hexUpperDigit (b.val % 16)]

/-- `urllib.parse.quote_plus` (with `safe=''`), on UTF-8 bytes. -/
def quotePlus : Bytes → Bytes
  | [] => []
  | b :: s => encByte b ++ quotePlus s

/-- Python `'&'.join`. -/
def joinAmp : List Bytes → Bytes
  | [] => []
  | [s] => s
  | s :: rest => s ++ byteOfNat 38 :: joinAmp rest

/-- `urllib.parse.urlencode` on an ordered dict of scalar entries:
`quote_plus(str(k)) + '=' + quote_plus(str(v))`, pairs joined with `&`. -/
def urlencodeDict (pairs : List (Bytes × QVal)) : Bytes :=
  joinAmp (pairs.map fun kv => quotePlus kv.1 ++ byteOfNat 61 :: quotePlus (pyStr kv.2))

/-- `UPBitClient._urlencode_sequence`: `'&'.join(f'{key}={item}' for item
in seq)` — note the items are interpolated literally, with no
percent-encoding. -/
def _urlencode_sequence (key : Bytes) (seq : List Bytes) : Bytes :=
  joinAmp (seq.map fun item => key ++ byteOfNat 61 :: item)

/-- The loop of `UPBitClient._urlencode`: partition the items, in order,
into the `encoded` dict (scalar branch) and the `encoded_seq` list of
already-joined groups (sequence branch, key suffixed `[]`). -/
def urlencodeLoop : Query → Query × List Bytes
  | [] => ([], [])
  | (k, v) :: rest =>
    let r := urlencodeLoop rest
    if isSeqBranch v then (r.1, _urlencode_sequence (k ++ bb "[]") (pyElems v) :: r.2)
    else ((k, v) :: r.1, r.2)

/-- `UPBitClient._urlencode`: the f-string
`f"{urlencode(encoded)}&{'&'.join(encoded_seq)}"`. -/
def _urlencode (query : Query) : Bytes :=
  urlencodeDict (urlencodeLoop query).1 ++ byteOfNat 38 :: joinAmp (urlencodeLoop query).2

/-- Lower-case hex digit byte for a nibble (as `hashlib`'s `hexdigest`
emits). -/
def hexLowerDigit (n : Nat) : Byte :=
  if n < 10 then byteOfNat (48 + n) else byteOfNat (87 + n)

/-- `hashlib`'s `.hexdigest()`: the digest bytes in lower-case hex. -/
def hexOfBytes : Bytes → Bytes
  | [] => []
  | b :: rest => hexLowerDigit (b.val / 16) :: hexLowerDigit (b.val % 16) :: hexOfBytes rest

/-- The Signed Request Payload built by `_generate_payload`. -/
structure Payload where
  access_key : Bytes
  nonce : Bytes
  query_hash : Option Bytes
  query_hash_alg : Option Bytes
  deriving DecidableEq

/-- `UPBitClient._generate_payload`.  `sha512` is the digest function of
`hashlib.sha512` (an external primitive, passed explicitly); `nonce` is
the freshly drawn `str(uuid.uuid4())`.  `query` is the optional `query`
argument (default `None`); `if query:` is false exactly for `None` and
for an empty mapping.  `self._urlencode(query).encode()` is the canonical
string's UTF-8 bytes — already the carrier here. -/
def _generate_payload (sha512 : Bytes → Bytes) (access_key nonce : Bytes)
    (query : Option Query) : Payload :=
  match query with
  | none => ⟨access_key, nonce, none, none⟩
  | some q =>
    if q.isEmpty then ⟨access_key, nonce, none, none⟩
    else
      ⟨access_key, nonce, some (hexOfBytes (sha512 (_urlencode q))), some (bb "SHA512")⟩

/-- A dispatched HTTP request, as handed to `requests.request`. -/
structure HttpRequest where
  method : Bytes
  uri : Bytes
  headers : List (Bytes × Bytes)
  params : Query
  deriving DecidableEq

/-- `f"{self.API_URL}/{self.API_VERSION}/{path}"`. -/
def apiUri (path : Bytes) : Bytes := bb "https://api.upbit.com/v1/" ++ path

/-- `UPBitClient._generate_auth_header`: `jwtEncode` stands for
`pyjwt`'s `jwt.encode(payload, secret).decode('utf-8')` (external
primitive, passed explicitly). -/
def _generate_auth_header (jwtEncode : Payload → Bytes → Bytes) (secret : Bytes)
    (payload : Payload) : List (Bytes × Bytes) :=
  [(bb "Authorization", bb "Bearer " ++ jwtEncode payload secret)]

/-- `UPBitClient._request`, up to the network boundary: the request it
hands to `requests.request(method, uri, headers=headers, params=kwargs)`.
Note that the `query` argument is only fed into the signing payload; the
dispatched parameters are the extra keyword arguments `kwargs` (and every
caller in the source passes the query via `query=`, leaving `kwargs`
empty). -/
def _request (sha512 : Bytes → Bytes) (jwtEncode : Payload → Bytes → Bytes)
    (access_key secret nonce : Bytes) (method path : Bytes)
    (query : Option Query) (headers : List (Bytes × Bytes)) (kwargs : Query) :
    HttpRequest :=
  let payload := _generate_payload sha512 access_key nonce query
  { method := method
    uri := apiUri path
    headers := headers ++ _generate_auth_header jwtEncode secret payload
    params := kwargs }

/-- Python `dict.update`: it mutates the receiver in place and *returns
`None`*.  `_order` passes its return value as the `query` argument, so the
value forwarded is always `None`. -/
def pyDictUpdateRet (_receiver _arg : Query) : Option Query := none

/-- `UPBitClient._order`:
`self._request('post', 'orders', query=kwargs.update({'side': side}))`. -/
def _order (sha512 : Bytes → Bytes) (jwtEncode : Payload → Bytes → Bytes)
    (access_key secret nonce : Bytes) (side : Bytes) (kwargs : Query) : HttpRequest :=
  _request sha512 jwtEncode access_key secret nonce (bb "post") (bb "orders")
    (pyDictUpdateRet kwargs [(bb "side", QVal.str side)]) [] []

/-- `UPBitClient.purchase`. -/
def purchase (sha512 : Bytes → Bytes) (jwtEncode : Payload → Bytes → Bytes)
    (access_key secret nonce : Bytes) (market : Bytes) (volume price : Int)
    (ord_type identifier : Bytes) : HttpRequest :=
  _order sha512 jwtEncode access_key secret nonce (bb "bid")
    [(bb "market", QVal.str market), (bb "volume", QVal.intV volume),
     (bb "price", QVal.intV price), (bb "ord_type", QVal.str ord_type),
     (bb "identifier", QVal.str identifier)]

/-- `UPBitClient.sell`. -/
def sell (sha512 : Bytes → Bytes) (jwtEncode : Payload → Bytes → Bytes)
    (access_key secret nonce : Bytes) (market : Bytes) (volume price : Int)
    (ord_type identifier : Bytes) : HttpRequest :=
  _order sha512 jwtEncode access_key secret nonce (bb "ask")
    [(bb "market", QVal.str market), (bb "volume", QVal.intV volume),
     (bb "price", QVal.intV price), (bb "ord_type", QVal.str ord_type),
     (bb "identifier", QVal.str identifier)]

/-- Python errors raised locally by the client code. -/
inductive PyErr
  | typeError (msg : Bytes)
  | keyError (key : Bytes)
  deriving DecidableEq

/-- Python truthiness of an optional-string argument: `None` and `''` are
falsy. -/
def truthyOpt : Option Bytes → Bool
  | none => false
  | some s => !s.isEmpty

/-- `UPBitClient.get_order_info`: raises `TypeError` when both identifying
arguments are falsy, *before* any request is built; otherwise builds its
query and returns the request that would be dispatched. -/
def get_order_info (sha512 : Bytes → Bytes) (jwtEncode : Payload → Bytes → Bytes)
    (access_key secret nonce : Bytes) (uuid_ identifier : Option Bytes) :
    Except PyErr HttpRequest :=
  if !truthyOpt uuid_ && !truthyOpt identifier then
    .error (.typeError (bb "order() needs at least one argument  (0 given)"))
  else
    .ok (_request sha512 jwtEncode access_key secret nonce (bb "get") (bb "order")
      (some ((if truthyOpt uuid_ then [(bb "uuid", QVal.str (uuid_.getD []))] else []) ++
        (if truthyOpt identifier then [(bb "identifier", QVal.str (identifier.getD []))] else [])))
      [] [])

/-- A Python optional-string value placed into a dict literal. -/
def optQV : Option Bytes → QVal
  | none => .noneV
  | some s => .str s

/-- `UPBitClient.cancel_order`: raises `TypeError` when both identifying
arguments are falsy; otherwise its query dict carries both keys (with
`None` values left in place). -/
def cancel_order (sha512 : Bytes → Bytes) (jwtEncode : Payload → Bytes → Bytes)
    (access_key secret nonce : Bytes) (uuid_ identifier : Option Bytes) :
    Except PyErr HttpRequest :=
  if !truthyOpt uuid_ && !truthyOpt identifier then
    .error (.typeError (bb "cancel_order() needs at least one argument (0 given)"))
  else
    .ok (_request sha512 jwtEncode access_key secret nonce (bb "delete") (bb "order")
      (some [(bb "uuid", optQV uuid_), (bb "identifier", optQV identifier)]) [] [])

/-- Python `str.isnumeric` on one byte (the relevant inputs are ASCII,
where only the decimal digits are numeric). -/
def isNumericByte (b : Byte) : Bool := 48 ≤ b.val && b.val ≤ 57

/-- The path computation inside `UPBitClient.get_candle_tickers`:
`unit = ''.join(filter(lambda x: x.isnumeric(), period))`, then the
`startswith('min')` / `'week'` / `'day'` / `'month'` cascade appended to
`'candles/'` (an unrecognized period leaves the bare `'candles/'`). -/
def candlePath (period : Bytes) : Bytes :=
  let unit := period.filter isNumericByte
  if (bb "min").isPrefixOf period then bb "candles/minutes/" ++ unit
  else if period = bb "week" then bb "candles/weeks"
  else if period = bb "day" then bb "candles/days"
  else if period = bb "month" then bb "candles/months"
  else bb "candles/"

/-- `UPBitClient.get_candle_tickers`, up to the network boundary: the
request `_public_request('get', path, query=query)` dispatches
(`requests.request(method, uri, params=query)`, no auth header). -/
def get_candle_tickers (period market : Bytes) (to_ : Option Bytes) (count : Int)
    (price_unit : Option Bytes) : HttpRequest :=
  { method := bb "get"
    uri := apiUri (candlePath period)
    headers := []
    params :=
      [(bb "count", QVal.intV count), (bb "market", QVal.str market),
       (bb "to", optQV to_)] ++
        (if truthyOpt price_unit then
          [(bb "convertingPriceUnit", QVal.str (price_unit.getD []))] else []) }

/-- Structured (JSON) data, as returned by `response.json()`. -/
inductive Json
  | null
  | boolJ (b : Bool)
  | numJ (n : Int)
  | strJ (s : Bytes)
  | arr (xs : List Json)
  | obj (fields : List (Bytes × Json))

/-- A received HTTP response, at the boundary the client inspects:
`status_code`, raw `text`, and the outcome of `response.json()` —
`some` parsed value, or `none` when the body is not parseable
(`ValueError`). -/
structure PyResponse where
  status_code : Nat
  text : Bytes
  json : Option Json

/-- Lookup in a JSON object's field list (Python `d[k]`). -/
def jsonField : List (Bytes × Json) → Bytes → Except PyErr Json
  | [], k => .error (.keyError k)
  | (k', v) :: rest, k => if k' = k then .ok v else jsonField rest k

/-- Python subscripting `j[k]` on a JSON value: a `KeyError` when the key
is missing, a `TypeError`-like failure when the value is not a dict. -/
def jsonGet : Json → Bytes → Except PyErr Json
  | .obj fields, k => jsonField fields k
  | _, k => .error (.typeError k)

/-- The fields `APIException.__init__` stores (`src/upbit/exceptions.py`):
on a parseable body, `name`/`message` come from `body['error']`; on an
unparseable body, `name` is `None` and `message` is the fallback string
around the raw text.  The original response is kept (the `request` field,
`getattr(response, 'request')`, is a component of that response object and
is not modelled separately). -/
structure APIExc where
  name : Option Json
  message : Json
  status_code : Nat
  response : PyResponse

/-- Constructing `APIException(response)`: the `try: response.json()`
split, then the `['error']['name']` / `['error']['message']` accesses
(which propagate `KeyError` when the parsed body lacks them). -/
def mkAPIException (r : PyResponse) : Except PyErr APIExc :=
  match r.json with
  | none =>
    .ok ⟨none, .strJ (bb "Invalid JSON error message from UPBit: " ++ r.text),
      r.status_code, r⟩
  | some j =>
    match jsonGet j (bb "error") with
    | .error pe => .error pe
    | .ok e =>
      match jsonGet e (bb "name") with
      | .error pe => .error pe
      | .ok n =>
        match jsonGet e (bb "message") with
        | .error pe => .error pe
        | .ok m => .ok ⟨some n, m, r.status_code, r⟩

/-- `str(response.status_code).startswith('2')`. -/
def statusStartsWith2 (n : Nat) : Bool :=
  match Nat.toDigits 10 n with
  | c :: _ => c = '2'
  | [] => false

/-- The observable outcome of `_handle_response`: the parsed body, or one
of the raised exceptions. -/
inductive HandleResult
  | ok (j : Json)
  | raisedAPI (e : APIExc)
  | raisedRequestExc (msg : Bytes)
  | raisedOther (e : PyErr)

/-- `UPBitClient._handle_response`. -/
def _handle_response (r : PyResponse) : HandleResult :=
  if !statusStartsWith2 r.status_code then
    match mkAPIException r with
    | .ok e => .raisedAPI e
    | .error pe => .raisedOther pe
  else
    match r.json with
    | some j => .ok j
    | none => .raisedRequestExc (bb "Invalid Response: " ++ r.text)

/-- Whether the outcome is the generic `RequestException`. -/
def isRequestExcResult : HandleResult → Bool
  | .raisedRequestExc _ => true
  | _ => false

/-- Whether the outcome is an `APIException`. -/
def isAPIExcResult : HandleResult → Bool
  | .raisedAPI _ => true
  | _ => false

/-- Splitting a byte string at `&` (byte 38), as a standard query-string
parser does; splitting the empty string yields one empty piece. -/
def splitAmp : Bytes → List Bytes
  | [] => [[]]
  | c :: s =>
    if c.val = 38 then [] :: splitAmp s
    else
      match splitAmp s with
      | [] => [[c]]
      | t :: ts => (c :: t) :: ts

/-- Percent/plus decoding (`urllib.parse.unquote_plus` on bytes): `+`
becomes a space, `%XX` becomes the byte `XX`, malformed escapes are kept
literally. -/
def unquotePlusHexVal (b : Byte) : Nat :=
  if 48 ≤ b.val && b.val ≤ 57 then b.val - 48
  else if 65 ≤ b.val && b.val ≤ 70 then b.val - 55
  else b.val - 87

/-- Whether a byte is a hex digit (`0-9`, `A-F`, `a-f`). -/
def isHexDigitByte (b : Byte) : Bool :=
  (48 ≤ b.val && b.val ≤ 57) || (65 ≤ b.val && b.val ≤ 70) ||
    (97 ≤ b.val && b.val ≤ 102)

def unquotePlus : Bytes → Bytes
  | [] => []
  | b :: h :: l :: rest =>
    if b.val = 43 then byteOfNat 32 :: unquotePlus (h :: l :: rest)
    else if b.val = 37 && isHexDigitByte h && isHexDigitByte l then
      byteOfNat (16 * unquotePlusHexVal h + unquotePlusHexVal l) :: unquotePlus rest
    else b :: unquotePlus (h :: l :: rest)
  | b :: rest =>
    if b.val = 43 then byteOfNat 32 :: unquotePlus rest
    else b :: unquotePlus rest

/-- Modelled from the spec: one `key=value` piece of "standard URL
query-string decoding" — split at the first `=` (byte 61) and
percent/plus-decode both halves; an empty piece is dropped. -/
def parsePair (seg : Bytes) : Option (Bytes × Bytes) :=
  if seg.isEmpty then none
  else
    some (unquotePlus (seg.takeWhile fun c => c.val != 61),
      unquotePlus ((seg.dropWhile fun c => c.val != 61).drop 1))

/-- Modelled from the spec: "standard URL query-string decoding" (the
behavior of `urllib.parse.parse_qsl` keeping blank values): split on `&`,
drop empty pieces, split each piece at its first `=`, percent/plus-decode
names and values. -/
def parseQS (s : Bytes) : List (Bytes × Bytes) :=
  (splitAmp s).filterMap parsePair

/-- The number of occurrences of `pat` (at any position, overlaps counted)
in `s`. -/
def countSubstr (pat s : Bytes) : Nat :=
  ((List.range (s.length + 1)).filter fun i => pat.isPrefixOf (s.drop i)).length

set_option maxRecDepth 8192

/-! ### Byte-level facts established by finite check -/

theorem encByte_all_sep (b : Byte) :
    (encByte b).all (fun c => c.val != 38 && c.val != 61) = true := by
  revert b; decide

theorem isSafeByte_ne (b : Byte) (h : isSafeByte b = true) : b.val ≠ 43 ∧ b.val ≠ 37 := by
  revert b; decide

theorem hexRoundTrip (b : Byte) :
    isHexDigitByte (hexUpperDigit (b.val / 16)) = true ∧
    isHexDigitByte (hexUpperDigit (b.val % 16)) = true ∧
    byteOfNat (16 * unquotePlusHexVal (hexUpperDigit (b.val / 16)) +
      unquotePlusHexVal (hexUpperDigit (b.val % 16))) = b := by
  revert b; decide

/-! ### Percent-decoding inverts percent-encoding -/

theorem unquotePlus_cons_plain (b : Byte) (rest : Bytes) (h43 : b.val ≠ 43)
    (h37 : b.val ≠ 37) : unquotePlus (b :: rest) = b :: unquotePlus rest := by
  match rest with
  | [] => simp [unquotePlus, h43]
  | [h] => simp [unquotePlus, h43]
  | h :: l :: t => simp [unquotePlus, h43, h37]

theorem unquotePlus_cons_plus (b : Byte) (rest : Bytes) (h43 : b.val = 43) :
    unquotePlus (b :: rest) = byteOfNat 32 :: unquotePlus rest := by
  match rest with
  | [] => simp [unquotePlus, h43]
  | [h] => simp [unquotePlus, h43]
  | h :: l :: t => simp [unquotePlus, h43]

theorem unquotePlus_escape (h l : Byte) (rest : Bytes) (hh : isHexDigitByte h = true)
    (hl : isHexDigitByte l = true) :
    unquotePlus (byteOfNat 37 :: h :: l :: rest)
      = byteOfNat (16 * unquotePlusHexVal h + unquotePlusHexVal l) :: unquotePlus rest := by
  simp [unquotePlus, hh, hl, (by decide : ¬ (byteOfNat 37).val = 43),
    (by decide : (byteOfNat 37).val = 37)]

theorem unquotePlus_quotePlus (s : Bytes) : unquotePlus (quotePlus s) = s := by
  induction s with
  | nil => rfl
  | cons b s ih =>
    show unquotePlus (encByte b ++ quotePlus s) = b :: s
    by_cases h32 : b.val = 32
    · have he : encByte b = [byteOfNat 43] := by simp [encByte, h32]
      rw [he, List.singleton_append,
        unquotePlus_cons_plus _ _ (by decide : (byteOfNat 43).val = 43), ih]
      have : byteOfNat 32 = b := Fin.ext (by rw [h32]; decide)
      rw [this]
    · by_cases hsafe : isSafeByte b = true
      · have he : encByte b = [b] := by simp [encByte, h32, hsafe]
        rw [he, List.singleton_append,
          unquotePlus_cons_plain _ _ (isSafeByte_ne b hsafe).1 (isSafeByte_ne b hsafe).2, ih]
      · have he : encByte b
            = [byteOfNat 37, hexUpperDigit (b.val / 16), hexUpperDigit (b.val % 16)] := by
          simp [encByte, h32, hsafe]
        rw [he]
        have h3 := hexRoundTrip b
        show unquotePlus (byteOfNat 37 :: hexUpperDigit (b.val / 16) ::
          hexUpperDigit (b.val % 16) :: quotePlus s) = b :: s
        rw [unquotePlus_escape _ _ _ h3.1 h3.2.1, h3.2.2, ih]

theorem quotePlus_sep_free (s : Bytes) : ∀ c ∈ quotePlus s, c.val ≠ 38 ∧ c.val ≠ 61 := by
  induction s with
  | nil => simp [quotePlus]
  | cons b s ih =>
    intro c hc
    rw [show quotePlus (b :: s) = encByte b ++ quotePlus s from rfl, List.mem_append] at hc
    rcases hc with hc | hc
    · have hall := encByte_all_sep b
      rw [List.all_eq_true] at hall
      have := hall c hc
      simpa [bne_iff_ne] using this
    · exact ih c hc

/-! ### Splitting on the separator undoes the join -/

theorem splitAmp_append_sep (a t : Bytes) (ha : ∀ c ∈ a, c.val ≠ 38) :
    splitAmp (a ++ byteOfNat 38 :: t) = a :: splitAmp t := by
  induction a with
  | nil => simp [splitAmp, (by decide : (byteOfNat 38).val = 38)]
  | cons c a ih =>
    have hc : c.val ≠ 38 := ha c (by simp)
    have ih' := ih (fun x hx => ha x (by simp [hx]))
    rw [List.cons_append]
    show splitAmp (c :: (a ++ byteOfNat 38 :: t)) = (c :: a) :: splitAmp t
    rw [splitAmp, ih']
    simp [hc]

theorem splitAmp_sep_free (a : Bytes) (ha : ∀ c ∈ a, c.val ≠ 38) : splitAmp a = [a] := by
  induction a with
  | nil => rfl
  | cons c a ih =>
    have hc : c.val ≠ 38 := ha c (by simp)
    have ih' := ih (fun x hx => ha x (by simp [hx]))
    rw [splitAmp, ih']
    simp [hc]

theorem splitAmp_joinAmp_sep (segs : List Bytes) (t : Bytes) (hne : segs ≠ [])
    (hfree : ∀ seg ∈ segs, ∀ c ∈ seg, c.val ≠ 38) :
    splitAmp (joinAmp segs ++ byteOfNat 38 :: t) = segs ++ splitAmp t := by
  induction segs with
  | nil => exact absurd rfl hne
  | cons s segs ih =>
    cases segs with
    | nil =>
      rw [show joinAmp [s] = s from rfl]
      rw [splitAmp_append_sep s t (hfree s (by simp))]
      rfl
    | cons s2 ss =>
      rw [show joinAmp (s :: s2 :: ss) = s ++ byteOfNat 38 :: joinAmp (s2 :: ss) from rfl]
      rw [List.append_assoc, List.cons_append]
      rw [splitAmp_append_sep s _ (hfree s (by simp))]
      rw [ih (by simp) (fun seg hseg => hfree seg (by simp [hseg]))]
      rfl

theorem splitAmp_joinAmp (segs : List Bytes) (hne : segs ≠ [])
    (hfree : ∀ seg ∈ segs, ∀ c ∈ seg, c.val ≠ 38) :
    splitAmp (joinAmp segs) = segs := by
  induction segs with
  | nil => exact absurd rfl hne
  | cons s segs ih =>
    cases segs with
    | nil => exact splitAmp_sep_free s (hfree s (by simp))
    | cons s2 ss =>
      rw [show joinAmp (s :: s2 :: ss) = s ++ byteOfNat 38 :: joinAmp (s2 :: ss) from rfl]
      rw [splitAmp_append_sep s _ (hfree s (by simp))]
      rw [ih (by simp) (fun seg hseg => hfree seg (by simp [hseg]))]

theorem joinAmp_mem_split (g : Bytes) (segs : List Bytes) (hg : g ∈ segs) :
    ∃ a b, joinAmp segs = a ++ g ++ b := by
  induction segs with
  | nil => cases hg
  | cons s segs ih =>
    cases segs with
    | nil =>
      have : g = s := by simpa using hg
      exact ⟨[], [], by simp [this, joinAmp]⟩
    | cons s2 ss =>
      rcases List.mem_cons.mp hg with h | h
      · exact ⟨[], byteOfNat 38 :: joinAmp (s2 :: ss), by simp [h, joinAmp]⟩
      · obtain ⟨a, b, hab⟩ := ih h
        exact ⟨s ++ byteOfNat 38 :: a, b, by simp [joinAmp, hab]⟩

/-! ### The canonicalizer's loop partitions the query -/

theorem urlencodeLoop_eq (q : Query) :
    urlencodeLoop q = (q.filter (fun kv => !isSeqBranch kv.2),
      (q.filter fun kv => isSeqBranch kv.2).map fun kv =>
        _urlencode_sequence (kv.1 ++ bb "[]") (pyElems kv.2)) := by
  induction q with
  | nil => rfl
  | cons kv q ih =>
    obtain ⟨k, v⟩ := kv
    by_cases h : isSeqBranch v = true
    · simp [urlencodeLoop, h, ih, List.filter_cons]
    · simp only [Bool.not_eq_true] at h
      simp [urlencodeLoop, h, ih, List.filter_cons]

/-! ### Parsing one encoded pair -/

theorem takeWhile_mid (p : Byte → Bool) (a : Bytes) (x : Byte) (b : Bytes)
    (ha : ∀ c ∈ a, p c = true) (hx : p x = false) :
    (a ++ x :: b).takeWhile p = a ∧ (a ++ x :: b).dropWhile p = x :: b := by
  induction a with
  | nil => simp [List.takeWhile_cons, List.dropWhile_cons, hx]
  | cons c a ih =>
    have hc := ha c (by simp)
    have := ih (fun y hy => ha y (by simp [hy]))
    simp [List.takeWhile_cons, List.dropWhile_cons, hc, this]

theorem parsePair_encoded (k : Bytes) (v : Bytes) :
    parsePair (quotePlus k ++ byteOfNat 61 :: quotePlus v) = some (k, v) := by
  have h61 : ∀ c ∈ quotePlus k, (fun c : Byte => c.val != 61) c = true := by
    intro c hc
    simpa [bne_iff_ne] using (quotePlus_sep_free k c hc).2
  have hx : (fun c : Byte => c.val != 61) (byteOfNat 61) = false := by decide
  obtain ⟨ht, hd⟩ := takeWhile_mid (fun c : Byte => c.val != 61) (quotePlus k) (byteOfNat 61) (quotePlus v) h61 hx
  have hnonempty : (quotePlus k ++ byteOfNat 61 :: quotePlus v).isEmpty = false := by
    cases h : quotePlus k <;> simp [h]
  rw [parsePair, hnonempty]
  simp [ht, hd, unquotePlus_quotePlus]

theorem parseQS_encoded_pairs (q : Query) :
    (q.map fun kv => quotePlus kv.1 ++ byteOfNat 61 :: quotePlus (pyStr kv.2)).filterMap
        parsePair = q.map fun kv => (kv.1, pyStr kv.2) := by
  induction q with
  | nil => rfl
  | cons kv q ih => simp [List.filterMap_cons, parsePair_encoded, ih]

theorem isPrefixOf_append_self (a t : Bytes) : a.isPrefixOf (a ++ t) = true := by
  induction a with
  | nil => simp [List.isPrefixOf]
  | cons c a ih => simp [List.isPrefixOf, ih]

/-- C1: for every Query passed to `_generate_payload`, the resulting Signed
Request Payload contains `query_hash` iff the Query is non-empty; when
present, `query_hash` is the hex-encoded digest — for any digest function
supplied for `hashlib.sha512`, in particular SHA-512 itself — of the byte
encoding of the canonicalized query string, and `query_hash_alg` is
`"SHA512"`. -/
theorem C1_payload_query_hash (sha512 : Bytes → Bytes) (ak nonce : Bytes) (q : Query) :
    ((_generate_payload sha512 ak nonce (some q)).query_hash.isSome ↔ q ≠ []) ∧
    (q ≠ [] →
      (_generate_payload sha512 ak nonce (some q)).query_hash
          = some (hexOfBytes (sha512 (_urlencode q))) ∧
        (_generate_payload sha512 ak nonce (some q)).query_hash_alg = some (bb "SHA512")) ∧
    ((_generate_payload sha512 ak nonce (some [])).query_hash = none ∧
      (_generate_payload sha512 ak nonce none).query_hash = none) := by
  refine ⟨?_, ?_, rfl, rfl⟩
  · by_cases h : q = [] <;> simp [_generate_payload, h]
  · intro h
    constructor <;> simp [_generate_payload, h]

theorem C1_payload_query_hash_witness :
    ([(bb "k", QVal.str (bb "v"))] : Query) ≠ [] ∧
    (_generate_payload id (bb "a") (bb "n") (some [(bb "k", QVal.str (bb "v"))])).query_hash
        = some (hexOfBytes (id (_urlencode [(bb "k", QVal.str (bb "v"))]))) ∧
    (_generate_payload id (bb "a") (bb "n")
        (some [(bb "k", QVal.str (bb "v"))])).query_hash_alg = some (bb "SHA512") :=
  ⟨by decide, (C1_payload_query_hash id (bb "a") (bb "n") _).2.1 (by decide)⟩

/-- C5: evaluation of the order-placement methods at the code's own
boundary.  Contrary to the documented contract, the dispatched request of
`purchase` and `sell` carries *no* parameters at all: `_order` passes
`kwargs.update({'side': side})` — which is `None`, since `dict.update`
returns `None` — as the signing query, and `_request` forwards only its
(empty) extra keyword arguments as `params`. -/
theorem C5_order_methods_send_no_params (sha512 : Bytes → Bytes)
    (jwtEncode : Payload → Bytes → Bytes) (ak sk nonce market : Bytes)
    (volume price : Int) (ord_type identifier : Bytes) :
    (purchase sha512 jwtEncode ak sk nonce market volume price ord_type identifier).params
        = [] ∧
    (sell sha512 jwtEncode ak sk nonce market volume price ord_type identifier).params = [] ∧
    (purchase sha512 jwtEncode ak sk nonce market volume price ord_type identifier).method
        = bb "post" ∧
    (purchase sha512 jwtEncode ak sk nonce market volume price ord_type identifier).uri
        = apiUri (bb "orders") ∧
    (∀ kwargs extra : Query, pyDictUpdateRet kwargs extra = none) :=
  ⟨rfl, rfl, rfl, rfl, fun _ _ => rfl⟩

/-- C6: calling `get_order_info` or `cancel_order` with both identifying
arguments absent yields the `TypeError` immediately — no `HttpRequest`
value is ever produced, so nothing is dispatched. -/
theorem C6_missing_args_raise_type_error (sha512 : Bytes → Bytes)
    (jwtEncode : Payload → Bytes → Bytes) (ak sk nonce : Bytes) :
    get_order_info sha512 jwtEncode ak sk nonce none none
        = .error (.typeError (bb "order() needs at least one argument  (0 given)")) ∧
    cancel_order sha512 jwtEncode ak sk nonce none none
        = .error (.typeError (bb "cancel_order() needs at least one argument (0 given)")) :=
  ⟨rfl, rfl⟩

/-- C8: the period argument of a candle-ticker request resolves to the
documented path: any all-digit suffix after `min` maps to
`candles/minutes/<n>` (so `min1` … `min240` in particular), and `week`,
`day`, `month` map to `candles/weeks`, `candles/days`, `candles/months`. -/
theorem C8_candle_paths (market : Bytes) (to_ : Option Bytes) (count : Int)
    (price_unit : Option Bytes) (ds : Bytes) (hds : ∀ b ∈ ds, isNumericByte b = true) :
    (get_candle_tickers (bb "min" ++ ds) market to_ count price_unit).uri
        = apiUri (bb "candles/minutes/" ++ ds) ∧
    (get_candle_tickers (bb "week") market to_ count price_unit).uri
        = apiUri (bb "candles/weeks") ∧
    (get_candle_tickers (bb "day") market to_ count price_unit).uri
        = apiUri (bb "candles/days") ∧
    (get_candle_tickers (bb "month") market to_ count price_unit).uri
        = apiUri (bb "candles/months") := by
  refine ⟨?_, congrArg apiUri (by decide), congrArg apiUri (by decide),
    congrArg apiUri (by decide)⟩
  show apiUri (candlePath (bb "min" ++ ds)) = apiUri (bb "candles/minutes/" ++ ds)
  refine congrArg apiUri ?_
  rw [candlePath]
  rw [isPrefixOf_append_self]
  simp [List.filter_append, (by decide : (bb "min").filter isNumericByte = []),
    List.filter_eq_self.mpr hds]

theorem C8_candle_paths_witness :
    (∀ b ∈ bb "240", isNumericByte b = true) ∧
    (get_candle_tickers (bb "min" ++ bb "240") (bb "KRW-BTC") none 200 none).uri
        = apiUri (bb "candles/minutes/" ++ bb "240") ∧
    (get_candle_tickers (bb "week") (bb "KRW-BTC") none 200 none).uri
        = apiUri (bb "candles/weeks") :=
  ⟨by decide,
    (C8_candle_paths (bb "KRW-BTC") none 200 none (bb "240") (by decide)).1,
    (C8_candle_paths (bb "KRW-BTC") none 200 none (bb "240") (by decide)).2.1⟩

/-- C9: the canonicalizer's output is the standard URL-encoding of the
scalar pairs, then one `&`, then the `&`-joined sequence groups; hence a
non-empty all-scalar Query yields a string ending in `&`, and a non-empty
all-sequence Query yields a string beginning with `&`. -/
theorem C9_canonical_structure (q : Query) :
    _urlencode q = urlencodeDict (q.filter fun kv => !isSeqBranch kv.2) ++ byteOfNat 38 ::
        joinAmp ((q.filter fun kv => isSeqBranch kv.2).map fun kv =>
          _urlencode_sequence (kv.1 ++ bb "[]") (pyElems kv.2)) ∧
    (q ≠ [] → (∀ kv ∈ q, isSeqBranch kv.2 = false) →
      (_urlencode q).getLast? = some (byteOfNat 38)) ∧
    (q ≠ [] → (∀ kv ∈ q, isSeqBranch kv.2 = true) →
      (_urlencode q).head? = some (byteOfNat 38)) := by
  refine ⟨by rw [_urlencode, urlencodeLoop_eq], ?_, ?_⟩
  · intro _ hs
    have hseq : (q.filter fun kv => isSeqBranch kv.2) = [] :=
      List.filter_eq_nil_iff.mpr (fun kv hkv => by simp [hs kv hkv])
    rw [_urlencode, urlencodeLoop_eq]
    simp only [hseq, List.map_nil]
    rw [show joinAmp [] = [] from rfl, List.getLast?_append_cons]
    rfl
  · intro _ hs
    have hsc : (q.filter fun kv => !isSeqBranch kv.2) = [] :=
      List.filter_eq_nil_iff.mpr (fun kv hkv => by simp [hs kv hkv])
    rw [_urlencode, urlencodeLoop_eq]
    simp [hsc, urlencodeDict, joinAmp]

theorem C9_canonical_structure_witness :
    ([(bb "a", QVal.str (bb "1"))] : Query) ≠ [] ∧
    (_urlencode [(bb "a", QVal.str (bb "1"))]).getLast? = some (byteOfNat 38) ∧
    (_urlencode [(bb "k", QVal.seqV .list [bb "x"])]).head? = some (byteOfNat 38) :=
  ⟨by decide,
    (C9_canonical_structure [(bb "a", QVal.str (bb "1"))]).2.1 (by decide) (by decide),
    (C9_canonical_structure [(bb "k", QVal.seqV .list [bb "x"])]).2.2 (by decide) (by decide)⟩

/-- C10: in the canonicalizer's loop a string value is always classified
as a scalar (despite Python strings being iterable), and every non-string
iterable value, of whatever concrete kind, produces a `key[]` sequence
group; the partition is exactly the `isinstance` branch test. -/
theorem C10_string_scalar_iterable_sequence (q : Query) (s : Bytes) (kind : SeqKind)
    (xs : List Bytes) :
    (urlencodeLoop q).1 = q.filter (fun kv => !isSeqBranch kv.2) ∧
    (urlencodeLoop q).2 = (q.filter fun kv => isSeqBranch kv.2).map (fun kv =>
      _urlencode_sequence (kv.1 ++ bb "[]") (pyElems kv.2)) ∧
    pyIsIterable (QVal.str s) = true ∧
    isSeqBranch (QVal.str s) = false ∧
    isSeqBranch (QVal.seqV kind xs) = true ∧
    pyElems (QVal.seqV kind xs) = xs := by
  refine ⟨?_, ?_, rfl, rfl, rfl, rfl⟩ <;> rw [urlencodeLoop_eq]

/-- C4 counterexample: a status-500 response whose body is not parseable
raises the *API* error (with `name` absent and the fallback message), not
the generic request error the claim asserts. -/
theorem C4_counterexample :
    isRequestExcResult (_handle_response ⟨500, bb "oops", none⟩) = false ∧
    _handle_response ⟨500, bb "oops", none⟩
      = .raisedAPI ⟨none, .strJ (bb "Invalid JSON error message from UPBit: oops"),
          500, ⟨500, bb "oops", none⟩⟩ :=
  ⟨rfl, rfl⟩

/-- C4, amended: for every response whose status does not start with `2`
and whose body is not parseable, response handling raises the API error
with no exchange-supplied name and with the raw response text embedded in
its fallback message (`Invalid JSON error message from UPBit: <text>`);
the generic request error is not raised in this situation. -/
theorem C4_amended_api_error_on_unparseable (r : PyResponse)
    (h2 : statusStartsWith2 r.status_code = false) (hj : r.json = none) :
    _handle_response r
      = .raisedAPI ⟨none, .strJ (bb "Invalid JSON error message from UPBit: " ++ r.text),
          r.status_code, r⟩ ∧
    isRequestExcResult (_handle_response r) = false := by
  have hmk : mkAPIException r
      = .ok ⟨none, .strJ (bb "Invalid JSON error message from UPBit: " ++ r.text),
          r.status_code, r⟩ := by
    simp only [mkAPIException, hj]
  rw [_handle_response, h2]
  simp [hmk, isRequestExcResult]

theorem C4_amended_api_error_on_unparseable_witness :
    statusStartsWith2 503 = false ∧
    _handle_response ⟨503, bb "nope", none⟩
      = .raisedAPI ⟨none, .strJ (bb "Invalid JSON error message from UPBit: " ++ bb "nope"),
          503, ⟨503, bb "nope", none⟩⟩ :=
  ⟨by decide,
    (C4_amended_api_error_on_unparseable ⟨503, bb "nope", none⟩ (by decide) rfl).1⟩

/-- C7: a response whose status does not start with `2` and whose body
parses with `error.name` and `error.message` fields raises an API error
carrying exactly those fields and the raw status code; a 2xx response
with a parseable body is returned as-is. -/
theorem C7_api_error_fields_and_success_passthrough :
    (∀ (r : PyResponse) (j e n m : Json),
      statusStartsWith2 r.status_code = false → r.json = some j →
      jsonGet j (bb "error") = .ok e → jsonGet e (bb "name") = .ok n →
      jsonGet e (bb "message") = .ok m →
      _handle_response r = .raisedAPI ⟨some n, m, r.status_code, r⟩) ∧
    (∀ (r : PyResponse) (j : Json),
      statusStartsWith2 r.status_code = true → r.json = some j →
      _handle_response r = .ok j) := by
  constructor
  · intro r j e n m h2 hj he hn hm
    have hmk : mkAPIException r = .ok ⟨some n, m, r.status_code, r⟩ := by
      simp only [mkAPIException, hj, he, hn, hm]
    rw [_handle_response, h2]
    simp [hmk]
  · intro r j h2 hj
    rw [_handle_response, h2]
    simp [hj]

theorem C7_api_error_fields_and_success_passthrough_witness :
    _handle_response ⟨404, bb "body",
        some (.obj [(bb "error", .obj [(bb "name", .strJ (bb "invalid_market")),
          (bb "message", .strJ (bb "market not found"))])])⟩
      = .raisedAPI ⟨some (.strJ (bb "invalid_market")), .strJ (bb "market not found"), 404,
          ⟨404, bb "body",
            some (.obj [(bb "error", .obj [(bb "name", .strJ (bb "invalid_market")),
              (bb "message", .strJ (bb "market not found"))])])⟩⟩ ∧
    _handle_response ⟨200, bb "[]", some (.arr [])⟩ = .ok (.arr []) :=
  ⟨C7_api_error_fields_and_success_passthrough.1 _ _ _ _ _ (by decide) rfl rfl rfl rfl,
    C7_api_error_fields_and_success_passthrough.2 ⟨200, bb "[]", some (.arr [])⟩ (.arr [])
      (by decide) rfl⟩

/-- C2 counterexample: with Query `{'k': ['a&k[]=b']}` (one element, so
N = 1) the output contains two occurrences of `k[]=`, and with Query
`{'k': ['a b']}` the element appears literally after `k[]=` — neither its
plus-encoding nor its percent-encoding appears, because
`_urlencode_sequence` does not percent-encode elements. -/
theorem C2_counterexample :
    countSubstr (bb "k[]=") (_urlencode [(bb "k", QVal.seqV .list [bb "a&k[]=b"])]) = 2 ∧
    countSubstr (bb "k[]=a+b") (_urlencode [(bb "k", QVal.seqV .list [bb "a b"])]) = 0 ∧
    countSubstr (bb "k[]=a%20b") (_urlencode [(bb "k", QVal.seqV .list [bb "a b"])]) = 0 ∧
    countSubstr (bb "k[]=a b") (_urlencode [(bb "k", QVal.seqV .list [bb "a b"])]) = 1 := by
  refine ⟨by decide, by decide, by decide, by decide⟩

/-- C2, amended: for a sequence-valued key, the canonicalizer emits one
`key[]=` group per element, in element order, with each element inserted
*literally* (not percent-encoded); the group occurs contiguously in the
canonical output, and — provided no key byte or element byte is `&` —
splitting the group on `&` yields exactly the N segments
`key[]=element`. -/
theorem C2_amended_literal_groups (k : Bytes) (vs : List Bytes) (q : Query) (kind : SeqKind)
    (hmem : (k, QVal.seqV kind vs) ∈ q) (hne : vs ≠ [])
    (hk : ∀ c ∈ k, c.val ≠ 38) (hvs : ∀ e ∈ vs, ∀ c ∈ e, c.val ≠ 38) :
    splitAmp (_urlencode_sequence (k ++ bb "[]") vs)
        = vs.map (fun e => k ++ bb "[]=" ++ e) ∧
    ∃ pre post, _urlencode q = pre ++ _urlencode_sequence (k ++ bb "[]") vs ++ post := by
  have hbr : ∀ c ∈ bb "[]", c.val ≠ 38 := by decide
  have hseg : ∀ e, (k ++ bb "[]") ++ byteOfNat 61 :: e = k ++ bb "[]=" ++ e := by
    intro e
    rw [(by decide : (bb "[]=" : Bytes) = bb "[]" ++ [byteOfNat 61])]
    simp [List.append_assoc]
  constructor
  · rw [_urlencode_sequence]
    rw [splitAmp_joinAmp _ (by simpa using hne) ?hfree]
    · exact List.map_congr_left fun e _ => hseg e
    case hfree =>
      intro seg hseg' c hc
      obtain ⟨e, he, rfl⟩ := List.mem_map.mp hseg'
      rcases List.mem_append.mp hc with hc | hc
      · rcases List.mem_append.mp hc with hc | hc
        · exact hk c hc
        · exact hbr c hc
      · rcases List.mem_cons.mp hc with rfl | hc
        · decide
        · exact hvs e he c hc
  · have hmem2 : _urlencode_sequence (k ++ bb "[]") vs ∈ (urlencodeLoop q).2 := by
      rw [urlencodeLoop_eq]
      refine List.mem_map.mpr ⟨(k, QVal.seqV kind vs), ?_, rfl⟩
      exact List.mem_filter.mpr ⟨hmem, rfl⟩
    obtain ⟨a, b, hab⟩ := joinAmp_mem_split _ _ hmem2
    refine ⟨urlencodeDict (urlencodeLoop q).1 ++ byteOfNat 38 :: a, b, ?_⟩
    rw [_urlencode, hab]
    simp [List.append_assoc]

theorem C2_amended_literal_groups_witness :
    ((bb "k", QVal.seqV .list [bb "x", bb "y"]) ∈
        ([(bb "k", QVal.seqV .list [bb "x", bb "y"])] : Query)) ∧
    splitAmp (_urlencode_sequence (bb "k" ++ bb "[]") [bb "x", bb "y"])
        = [bb "k" ++ bb "[]=" ++ bb "x", bb "k" ++ bb "[]=" ++ bb "y"] ∧
    (∃ pre post, _urlencode [(bb "k", QVal.seqV .list [bb "x", bb "y"])]
        = pre ++ _urlencode_sequence (bb "k" ++ bb "[]") [bb "x", bb "y"] ++ post) :=
  ⟨by decide,
    (C2_amended_literal_groups (bb "k") [bb "x", bb "y"]
      [(bb "k", QVal.seqV .list [bb "x", bb "y"])] .list (by decide) (by decide)
      (by decide) (by decide)).1,
    (C2_amended_literal_groups (bb "k") [bb "x", bb "y"]
      [(bb "k", QVal.seqV .list [bb "x", bb "y"])] .list (by decide) (by decide)
      (by decide) (by decide)).2⟩

/-- C3: for a Query all of whose values take the scalar branch, parsing
the canonicalizer's output back with standard query-string decoding yields
exactly the original pairs (values in their `str(v)` form, which is the
identity on string values). -/
theorem C3_scalar_roundtrip (q : Query) (hs : ∀ kv ∈ q, isSeqBranch kv.2 = false) :
    parseQS (_urlencode q) = q.map fun kv => (kv.1, pyStr kv.2) := by
  have hscal : q.filter (fun kv => !isSeqBranch kv.2) = q :=
    List.filter_eq_self.mpr (fun kv hkv => by simp [hs kv hkv])
  have hseq : q.filter (fun kv => isSeqBranch kv.2) = [] :=
    List.filter_eq_nil_iff.mpr (fun kv hkv => by simp [hs kv hkv])
  have hu : _urlencode q = urlencodeDict q ++ byteOfNat 38 :: [] := by
    rw [_urlencode, urlencodeLoop_eq]
    simp only [hscal, hseq, List.map_nil]
    rw [show joinAmp [] = [] from rfl]
  by_cases hq : q = []
  · subst hq
    decide
  · have hfree : ∀ seg ∈ (q.map fun kv =>
        quotePlus kv.1 ++ byteOfNat 61 :: quotePlus (pyStr kv.2)), ∀ c ∈ seg, c.val ≠ 38 := by
      intro seg hseg c hc
      obtain ⟨kv, _, rfl⟩ := List.mem_map.mp hseg
      rcases List.mem_append.mp hc with hc | hc
      · exact (quotePlus_sep_free _ c hc).1
      · rcases List.mem_cons.mp hc with rfl | hc
        · decide
        · exact (quotePlus_sep_free _ c hc).1
    have hne : (q.map fun kv =>
        quotePlus kv.1 ++ byteOfNat 61 :: quotePlus (pyStr kv.2)) ≠ [] := by
      simpa using hq
    rw [parseQS, hu, urlencodeDict, splitAmp_joinAmp_sep _ _ hne hfree]
    rw [List.filterMap_append]
    rw [show (splitAmp []).filterMap parsePair = [] from rfl]
    rw [parseQS_encoded_pairs q, List.append_nil]

theorem C3_scalar_roundtrip_witness :
    (∀ kv ∈ ([(bb "a", QVal.str (bb "1 x")), (bb "b", QVal.intV 7)] : Query),
      isSeqBranch kv.2 = false) ∧
    parseQS (_urlencode [(bb "a", QVal.str (bb "1 x")), (bb "b", QVal.intV 7)])
        = [(bb "a", bb "1 x"), (bb "b", bb "7")] :=
  ⟨by decide, by
    rw [C3_scalar_roundtrip _ (by decide)]
    decide⟩
